import Mathlib

/-!
Verification of the forecast alignment and scoring pipeline of
`evaluate_models_cases.py` (COVID-19 Forecast Hub evaluation).

Dates are embedded as day numbers (`Int`): Python `datetime.date` objects
compare chronologically and subtract to day differences, which is exactly
the order and subtraction on day numbers.  Numeric values are embedded as
`ℚ`; a pandas `NaN` cell is `none : Option ℚ`.
-/

set_option maxRecDepth 4000

/-! ## String primitives (models of `str` operations used by the script) -/

/-- Lexicographic order on character lists: the order Python uses to
compare/sort strings (by code point). -/
def listLe : List Char → List Char → Bool
  | [], _ => true
  | _ :: _, [] => false
  | a :: as, b :: bs =>
    if a = b then listLe as bs else decide (a < b)

/-- Python string `<=` used by `sorted(fnames) == fnames`. -/
def strLe (a b : String) : Bool :=
  listLe a.data b.data

/-- `pat` is a prefix of `s` (character lists). -/
def isPrefixL : List Char → List Char → Bool
  | [], _ => true
  | _ :: _, [] => false
  | a :: as, b :: bs => a = b && isPrefixL as bs

/-- `pat` occurs somewhere in `s` (character lists); model of
`pandas.Series.str.contains` with a literal pattern. -/
def containsAux (pat : List Char) : List Char → Bool
  | [] => isPrefixL pat []
  | c :: rest => isPrefixL pat (c :: rest) || containsAux pat rest

/-- `s` contains `pat` as a substring. -/
def containsSubstr (s pat : String) : Bool :=
  containsAux pat.data s.data

/-- The part of a path after the last `/` — model of `os.path.basename`. -/
def takeUntilSlash : List Char → List Char
  | [] => []
  | c :: rest => if c = '/' then [] else c :: takeUntilSlash rest

/-- Model of `os.path.basename`. -/
def basename (s : String) : String :=
  String.mk ((takeUntilSlash s.data.reverse).reverse)

/-! ## Calendar dates as day numbers -/

/-- Gregorian leap year. -/
def isLeap (y : Nat) : Bool :=
  y % 4 == 0 && (y % 100 != 0 || y % 400 == 0)

/-- Days in month `m` of year `y` (`m` between 1 and 12). -/
def daysInMonth (y m : Nat) : Nat :=
  if m = 2 then (if isLeap y then 29 else 28)
  else if m = 4 ∨ m = 6 ∨ m = 9 ∨ m = 11 then 30
  else 31

/-- Days in year `y` strictly before month `m`. -/
def daysBeforeMonth (y m : Nat) : Nat :=
  ((List.range (m - 1)).map (fun i => daysInMonth y (i + 1))).sum

/-- Day number of the calendar date `y-m-d` (days since a fixed epoch);
chronological order and day differences agree with Python `datetime.date`. -/
def dayNumber (y m d : Nat) : Int :=
  ((365 * (y - 1) + (y - 1) / 4 - (y - 1) / 100 + (y - 1) / 400
    + daysBeforeMonth y m + (d - 1) : Nat) : Int)

/-- Convenience constructor for concrete dates. -/
def mkDate (y m d : Nat) : Int := dayNumber y m d

/-- Numeric value of a decimal digit character, if it is one. -/
def digitVal : Char → Option Nat
  | c => if c.isDigit then some (c.toNat - 48) else none

/-- Model of `str_to_date(file_basename[:10])` with format `%Y-%m-%d`:
parse the first ten characters as `YYYY-MM-DD`, validating month and day
ranges as `strptime` does; `none` models the `ValueError` branch. -/
def parseDate (s : String) : Option Int :=
  match s.data with
  | y1 :: y2 :: y3 :: y4 :: '-' :: m1 :: m2 :: '-' :: d1 :: d2 :: _ =>
    match digitVal y1, digitVal y2, digitVal y3, digitVal y4,
          digitVal m1, digitVal m2, digitVal d1, digitVal d2 with
    | some a, some b, some c, some d, some e, some f, some g, some h =>
      let y := 1000 * a + 100 * b + 10 * c + d
      let m := 10 * e + f
      let dd := 10 * g + h
      if 1 ≤ m ∧ m ≤ 12 ∧ 1 ≤ dd ∧ dd ≤ daysInMonth y m then
        some (dayNumber y m dd)
      else none
    | _, _, _, _, _, _, _, _ => none
  | _ => none

/-! ## File Selector (`find_last_projections`) -/

/-- Submission-window tolerance in days: 6 on or after 2020-07-20, else 3. -/
def tolerance (proj_date : Int) : Int :=
  if mkDate 2020 7 20 ≤ proj_date then 6 else 3

/-- The loop of `find_last_projections`: state is
(`last_valid_fname`, `last_valid_date`). -/
def flpAux (proj_date : Int) : List String → Option String × Option Int →
    Option String × Option Int
  | [], acc => acc
  | fname :: rest, acc =>
    match parseDate (basename fname) with
    | none => flpAux proj_date rest acc
    | some file_date =>
      if file_date ≤ proj_date ∧ proj_date - file_date ≤ tolerance proj_date then
        match acc.2 with
        | none => flpAux proj_date rest (some fname, some file_date)
        | some last_valid_date =>
          if last_valid_date < file_date then
            flpAux proj_date rest (some fname, some file_date)
          else
            flpAux proj_date rest acc
      else flpAux proj_date rest acc

/-- `find_last_projections(fnames, proj_date)` from the script (the sortedness
`assert` is a precondition carried by the theorems). -/
def find_last_projections (fnames : List String) (proj_date : Int) :
    Option String × Option Int :=
  flpAux proj_date fnames (none, none)

/-! Specification-side view of the selector, used to state the (corrected)
selection rule: latest qualifying embedded date wins, first in list on ties. -/

/-- The embedded date of a file, if it parses and qualifies under the
tolerance window for `proj_date`. -/
def qualDate (proj_date : Int) (fname : String) : Option Int :=
  match parseDate (basename fname) with
  | none => none
  | some file_date =>
    if file_date ≤ proj_date ∧ proj_date - file_date ≤ tolerance proj_date then
      some file_date
    else none

/-- A file qualifies under the tolerance window. -/
def qualifies (proj_date : Int) (fname : String) : Bool :=
  (qualDate proj_date fname).isSome

/-- Latest qualifying embedded date in a list of filenames. -/
def bestDate (proj_date : Int) : List String → Option Int
  | [] => none
  | f :: rest =>
    match qualDate proj_date f, bestDate proj_date rest with
    | none, r => r
    | some fd, none => some fd
    | some fd, some d => some (max fd d)

/-- The first file in the list whose qualifying date is the latest one. -/
def firstBest (proj_date : Int) (fnames : List String) : Option String :=
  match bestDate proj_date fnames with
  | none => none
  | some d => fnames.find? (fun f => qualDate proj_date f == some d)

/-! ## Truth Loader -/

/-- One row of the ground-truth incident-case series (after the rename of
`value` to `daily_cases`). -/
structure TruthRow where
  date : Int
  location : String
  daily_cases : ℚ
deriving DecidableEq

/-- Rows of the truth series with `model_ran_date <= date <= eval_date`. -/
def truth_window (rows : List TruthRow) (model_ran_date eval_date : Int) :
    List TruthRow :=
  rows.filter (fun r => model_ran_date ≤ r.date ∧ r.date ≤ eval_date)

/-- Sum of daily cases at one location. -/
def location_total (rows : List TruthRow) (loc : String) : ℚ :=
  ((rows.filter (fun r => r.location == loc)).map (fun r => r.daily_cases)).sum

/-- Model of `df_truth.groupby('location')['daily_cases'].sum()`: one summed
entry per distinct location. -/
def group_sum_by_location (rows : List TruthRow) : List (String × ℚ) :=
  ((rows.map (fun r => r.location)).dedup).map (fun l => (l, location_total rows l))

/-- The Truth Loader: window filter, the `len(df_truth) > 0` assert, the
group-by-location sum, the restriction to `fips_to_evaluate` and the
`len(df_truth_filt) == len(fips_to_evaluate)` assert; `none` models an
aborted run. -/
def load_truth (rows : List TruthRow) (proj_date eval_date : Int)
    (fips_to_evaluate : List String) : Option (List (String × ℚ)) :=
  if (truth_window rows (proj_date - 1) eval_date).length = 0 then none
  else if ((group_sum_by_location (truth_window rows (proj_date - 1) eval_date)).filter
      (fun p => fips_to_evaluate.contains p.1)).length = fips_to_evaluate.length then
    some ((group_sum_by_location (truth_window rows (proj_date - 1) eval_date)).filter
      (fun p => fips_to_evaluate.contains p.1))
  else none

/-! ## Forecast Normalizer -/

/-- One row of a model's forecast table (columns used by the pipeline after
`validate_projections`); a NaN `quantile` is `none`. -/
structure ForecastRow where
  target : String
  target_end_date : Int
  location : String
  type : String
  quantile : Option ℚ
  value : ℚ
deriving DecidableEq

/-- The horizon substring `'wk ahead inc case'` tested by the script. -/
def targetStr : String := "wk ahead inc case"

/-- Row is a weekly incident-case horizon row. -/
def isInc (r : ForecastRow) : Bool := containsSubstr r.target targetStr

/-- The weekly incident-case rows of a table. -/
def incRows (rows : List ForecastRow) : List ForecastRow := rows.filter isInc

/-- Locations appearing among incident-case rows
(`groupby('location')` keys). -/
def incLocations (rows : List ForecastRow) : List String :=
  ((incRows rows).map (fun r => r.location)).dedup

/-- `location_quantile_sizes[loc]`: number of incident-case rows at `loc`. -/
def incCount (rows : List ForecastRow) (loc : String) : Nat :=
  ((incRows rows).filter (fun r => r.location == loc)).length

/-- `location_quantile_sizes.max()`. -/
def maxIncCount (rows : List ForecastRow) : Nat :=
  ((incLocations rows).map (incCount rows)).foldr max 0

/-- The horizon-completeness step: when per-location incident-row counts
differ, keep only incident-case rows of locations having the maximum count
(the `groupby('location').filter(lambda x: len(x) == max)` reassignment);
otherwise the table is left alone. -/
def horizonFilter (rows : List ForecastRow) : List ForecastRow :=
  let sizes := (incLocations rows).map (incCount rows)
  if 1 < sizes.dedup.length then
    (incRows rows).filter (fun r => incCount rows r.location == maxIncCount rows)
  else rows

/-- `(df_model['type'] == 'point').sum() > 0`. -/
def has_point (rows : List ForecastRow) : Bool :=
  rows.any (fun r => r.type == "point")

/-- `(df_model['quantile'] == 0.5).sum() > 0` (NaN compares unequal). -/
def has_median (rows : List ForecastRow) : Bool :=
  rows.any (fun r => r.quantile == some (1/2))

/-- The point-vs-median selection and final row filter producing
`df_model_filt`: one branch chosen per model over the whole table. -/
def select_estimates (use_point : Bool) (rows : List ForecastRow)
    (fips_to_evaluate : List String) : List ForecastRow :=
  if has_point rows && (use_point || !has_median rows) then
    rows.filter (fun r =>
      isInc r && r.type == "point" && fips_to_evaluate.contains r.location)
  else
    rows.filter (fun r =>
      isInc r && r.quantile == some (1/2) && fips_to_evaluate.contains r.location)

/-! ## Error tables with missing values -/

/-- pandas mean with `skipna=True`: mean of the non-NaN entries, NaN when
there are none. -/
def nanmean (xs : List (Option ℚ)) : Option ℚ :=
  if (xs.filterMap id).length = 0 then none
  else some ((xs.filterMap id).sum / (xs.filterMap id).length)

/-- Column `j` of a table of rows. -/
def colAt (rows : List (List (Option ℚ))) (j : Nat) : List (Option ℚ) :=
  rows.map (fun row => row.getD j none)

/-- `df.abs().mean()` at column `j`: mean absolute value over the models
that are non-missing at that column (pandas column-wise mean). -/
def colAbsMean (rows : List (List (Option ℚ))) (j : Nat) : Option ℚ :=
  nanmean ((colAt rows j).map (fun v => v.map (fun x => |x|)))

/-- `df.mean(axis=0)` at column `j`. -/
def colMean (rows : List (List (Option ℚ))) (j : Nat) : Option ℚ :=
  nanmean (colAt rows j)

/-- `fillna`: a present value is kept, a missing one is replaced by the fill
value for its column (which may itself be missing). -/
def fillCell (v fill : Option ℚ) : Option ℚ :=
  match v with
  | some x => some x
  | none => fill

/-- `df_errors_states.fillna(df_errors_states.abs().mean())`: every missing
cell is filled with its COLUMN's mean absolute error (`mean()` is
column-wise), for a table with `n` columns. -/
def impute_with_col_abs_means (n : Nat) (df : List (String × List (Option ℚ))) :
    List (String × List (Option ℚ)) :=
  df.map (fun r => (r.1, List.zipWith fillCell r.2
    ((List.range n).map (fun j => colAbsMean (df.map (fun r2 => r2.2)) j))))

/-- Modelled from the spec: the fill value the claim asserts — a model's own
mean absolute error across its non-missing locations (row-wise mean).  Used
only to exhibit the divergence from the code's column-wise fill. -/
def rowAbsMean (row : List (Option ℚ)) : Option ℚ :=
  nanmean (row.map (fun v => v.map (fun x => |x|)))

/-- The table has no missing cell. -/
def noNaN (df : List (String × List (Option ℚ))) : Bool :=
  df.all (fun r => r.2.all (fun v => v.isSome))

/-- One pass of the model-merging loop for a configured pattern `pfx`:
if any model name contains `pfx`, drop all of them and append
`pfx ++ "-combined"` carrying the column-wise (NaN-skipping) mean of the
dropped rows; otherwise leave the table alone. -/
def merge_models_step (pfx : String) (n : Nat)
    (df : List (String × List (Option ℚ))) : List (String × List (Option ℚ)) :=
  if (df.filter (fun r => containsSubstr r.1 pfx)).length = 0 then df
  else
    (df.filter (fun r => !containsSubstr r.1 pfx)) ++
      [(pfx ++ "-combined",
        (List.range n).map (fun j =>
          colMean ((df.filter (fun r => containsSubstr r.1 pfx)).map
            (fun r => r.2)) j))]

/-! ## Scorer: US consistency check and beat-baseline -/

/-- Key lookup in a model-indexed series: `some v` when the key is present
(the stored value may itself be NaN), `none` when absent. -/
def lookupModel (tbl : List (String × Option ℚ)) (k : String) :
    Option (Option ℚ) :=
  (tbl.find? (fun r => r.1 == k)).map (fun r => r.2)

/-- The value pandas index alignment sees for key `k`: a missing key aligns
to NaN, exactly like a stored NaN. -/
def alignedVal (tbl : List (String × Option ℚ)) (k : String) : Option ℚ :=
  match lookupModel tbl k with
  | some v => v
  | none => none

/-- The union of the two indexes, as produced by pandas alignment. -/
def keysUnion (t1 t2 : List (String × Option ℚ)) : List String :=
  ((t1.map (fun r => r.1)) ++ (t2.map (fun r => r.1))).dedup

/-- One aligned comparison `(a == b) | (isnan(a) & isnan(b))`: NaN compares
unequal to everything, including NaN. -/
def eqOrBothNaN (a b : Option ℚ) : Bool :=
  match a, b with
  | some x, some y => x == y
  | none, none => true
  | _, _ => false

/-- The `assert ((df_errors_us['error'] == df_errors['US']) | (isnan &
isnan)).all()` check; `false` models an aborted run. -/
def check_us_consistency (t1 t2 : List (String × Option ℚ)) : Bool :=
  (keysUnion t1 t2).all (fun k => eqOrBothNaN (alignedVal t1 k) (alignedVal t2 k))

/-- `|err|` on a possibly-missing error. -/
def absOpt (v : Option ℚ) : Option ℚ := v.map (fun x => |x|)

/-- pandas `<` on scalars with NaN: any comparison involving NaN is False. -/
def ltNaN (a b : Option ℚ) : Bool :=
  match a, b with
  | some x, some y => decide (x < y)
  | _, _ => false

/-- The beat-baseline column for one model at one location: the boolean
`(|e_m| < |e_b|) | (|e_m| < 1e-3)`, overwritten with NaN wherever the
model's own error is missing. -/
def beat_baseline (err_model err_baseline : Option ℚ) : Option Bool :=
  let b := ltNaN (absOpt err_model) (absOpt err_baseline) ||
    ltNaN (absOpt err_model) (some (1/1000))
  match err_model with
  | none => none
  | some _ => some b

/-! ## Location-code normalization -/

/-- `'0' + v` when a FIPS code has a single character (lines 130–133). -/
def pad_fips (v : String) : String :=
  if v.length = 1 then "0" ++ v else v

/-- The normalization loop over `abbr_to_fips`. -/
def normalize_abbr_to_fips (m : List (String × String)) :
    List (String × String) :=
  m.map (fun kv => (kv.1, pad_fips kv.2))

/-! ### Selector lemmas -/

theorem qualDate_some (proj_date : Int) (fname : String) (d : Int)
    (h : qualDate proj_date fname = some d) :
    parseDate (basename fname) = some d ∧ d ≤ proj_date ∧
      proj_date - d ≤ tolerance proj_date := by
  unfold qualDate at h
  split at h
  · exact absurd h (by simp)
  · rename_i fd hp
    split at h
    · rename_i hc
      injection h with h'
      subst h'
      exact ⟨hp, hc.1, hc.2⟩
    · exact absurd h (by simp)

theorem flpAux_cons_of_qual_none (proj_date : Int) (f : String) (rest : List String)
    (acc : Option String × Option Int) (h : qualDate proj_date f = none) :
    flpAux proj_date (f :: rest) acc = flpAux proj_date rest acc := by
  unfold qualDate at h
  split at h
  · rename_i hp
    simp only [flpAux, hp]
  · rename_i fd hp
    split at h
    · exact absurd h (by simp)
    · rename_i hc
      simp only [flpAux, hp]
      rw [if_neg hc]

theorem flpAux_cons_of_qual_some (proj_date : Int) (f : String) (rest : List String)
    (acc : Option String × Option Int) (fd : Int)
    (h : qualDate proj_date f = some fd) :
    flpAux proj_date (f :: rest) acc =
      (match acc.2 with
        | none => flpAux proj_date rest (some f, some fd)
        | some lvd =>
          if lvd < fd then flpAux proj_date rest (some f, some fd)
          else flpAux proj_date rest acc) := by
  unfold qualDate at h
  split at h
  · exact absurd h (by simp)
  · rename_i fd' hp
    split at h
    · rename_i hc
      injection h with h'
      subst h'
      simp only [flpAux, hp]
      rw [if_pos hc]
    · exact absurd h (by simp)

theorem bestDate_cons (proj_date : Int) (f : String) (rest : List String) :
    bestDate proj_date (f :: rest) =
      (match qualDate proj_date f, bestDate proj_date rest with
        | none, r => r
        | some fd, none => some fd
        | some fd, some d => some (max fd d)) := rfl

theorem flpAux_some_spec (proj_date : Int) (rest : List String) :
    ∀ (f0 : String) (d0 : Int),
    flpAux proj_date rest (some f0, some d0) =
      (match bestDate proj_date rest with
        | none => (some f0, some d0)
        | some d =>
          if d0 < d then
            (rest.find? (fun f => qualDate proj_date f == some d), some d)
          else (some f0, some d0)) := by
  induction rest with
  | nil => intro f0 d0; rfl
  | cons f rest ih =>
    intro f0 d0
    cases hq : qualDate proj_date f with
    | none =>
      rw [flpAux_cons_of_qual_none proj_date f rest _ hq, ih f0 d0,
        bestDate_cons, hq]
      cases hbr : bestDate proj_date rest with
      | none => rfl
      | some d =>
        dsimp only
        by_cases h1 : d0 < d
        · rw [if_pos h1, if_pos h1,
            List.find?_cons_of_neg _ (by rw [hq]; simp)]
        · rw [if_neg h1, if_neg h1]
    | some fd =>
      rw [flpAux_cons_of_qual_some proj_date f rest _ fd hq]
      dsimp only
      rw [bestDate_cons, hq]
      cases hbr : bestDate proj_date rest with
      | none =>
        dsimp only
        by_cases h1 : d0 < fd
        · rw [if_pos h1, if_pos h1, ih f fd, hbr,
            List.find?_cons_of_pos _ (by rw [hq]; simp)]
        · rw [if_neg h1, if_neg h1, ih f0 d0, hbr]
      | some d =>
        dsimp only
        by_cases h1 : d0 < fd
        · rw [if_pos h1, ih f fd, hbr]
          dsimp only
          by_cases h2 : fd < d
          · rw [if_pos h2]
            have hmax : max fd d = d := max_eq_right (le_of_lt h2)
            rw [hmax, if_pos (lt_trans h1 h2),
              List.find?_cons_of_neg _ (by rw [hq]; simp; omega)]
          · rw [if_neg h2]
            have hmax : max fd d = fd := max_eq_left (by omega)
            rw [hmax, if_pos h1,
              List.find?_cons_of_pos _ (by rw [hq]; simp)]
        · rw [if_neg h1, ih f0 d0, hbr]
          dsimp only
          by_cases h2 : d0 < d
          · rw [if_pos h2]
            have hmax : max fd d = d := max_eq_right (by omega)
            rw [hmax, if_pos h2,
              List.find?_cons_of_neg _ (by rw [hq]; simp; omega)]
          · rw [if_neg h2]
            have hmax : ¬ d0 < max fd d := by
              rw [not_lt] at h1 h2 ⊢
              exact max_le h1 h2
            rw [if_neg hmax]

theorem find_last_projections_spec (fnames : List String) (proj_date : Int) :
    find_last_projections fnames proj_date =
      (firstBest proj_date fnames, bestDate proj_date fnames) := by
  unfold find_last_projections firstBest
  induction fnames with
  | nil => rfl
  | cons f rest ih =>
    cases hq : qualDate proj_date f with
    | none =>
      rw [flpAux_cons_of_qual_none proj_date f rest _ hq, ih,
        bestDate_cons, hq]
      cases hbr : bestDate proj_date rest with
      | none => rfl
      | some d =>
        dsimp only
        rw [List.find?_cons_of_neg _ (by rw [hq]; simp)]
    | some fd =>
      rw [flpAux_cons_of_qual_some proj_date f rest _ fd hq]
      dsimp only
      rw [flpAux_some_spec, bestDate_cons, hq]
      cases hbr : bestDate proj_date rest with
      | none =>
        dsimp only
        rw [List.find?_cons_of_pos _ (by rw [hq]; simp)]
      | some d =>
        dsimp only
        by_cases h2 : fd < d
        · rw [if_pos h2]
          have hmax : max fd d = d := max_eq_right (le_of_lt h2)
          rw [hmax, List.find?_cons_of_neg _ (by rw [hq]; simp; omega)]
        · rw [if_neg h2]
          have hmax : max fd d = fd := max_eq_left (by omega)
          rw [hmax, List.find?_cons_of_pos _ (by rw [hq]; simp)]

theorem bestDate_is_max (proj_date : Int) (fnames : List String) :
    ∀ f ∈ fnames, ∀ fd, qualDate proj_date f = some fd →
      ∃ d, bestDate proj_date fnames = some d ∧ fd ≤ d := by
  induction fnames with
  | nil => intro f hf; exact absurd hf (List.not_mem_nil f)
  | cons g rest ih =>
    intro f hf fd hfd
    rw [bestDate_cons]
    rcases List.mem_cons.mp hf with hfg | hfr
    · subst hfg
      rw [hfd]
      cases hbr : bestDate proj_date rest with
      | none => exact ⟨fd, rfl, le_refl fd⟩
      | some d => exact ⟨max fd d, rfl, le_max_left fd d⟩
    · rcases ih f hfr fd hfd with ⟨d, hd, hle⟩
      rw [hd]
      cases hq : qualDate proj_date g with
      | none => exact ⟨d, rfl, hle⟩
      | some gd => exact ⟨max gd d, rfl, le_trans hle (le_max_right gd d)⟩

theorem bestDate_eq_none (proj_date : Int) (fnames : List String)
    (h : ∀ f ∈ fnames, qualifies proj_date f = false) :
    bestDate proj_date fnames = none := by
  induction fnames with
  | nil => rfl
  | cons f rest ih =>
    rw [bestDate_cons]
    have hf : qualDate proj_date f = none := by
      have hq := h f (List.mem_cons_self f rest)
      unfold qualifies at hq
      exact Option.not_isSome_iff_eq_none.mp (by rw [hq]; simp)
    rw [hf, ih (fun g hg => h g (List.mem_cons_of_mem f hg))]

/-! ### Claims C2 and C3: File Selector -/

/-- C2 (amended): for every sorted candidate list and target projection date,
`find_last_projections` returns the latest qualifying embedded date together
with the FIRST file in the list attaining it (the loop only replaces its
candidate on a strictly later date), and every qualifying file's date is at
most the returned one.  The original claim's last-in-list tie-break is false:
see the counterexample. -/
theorem c2_tiebreak_amended :
    ∀ (fnames : List String) (proj_date : Int),
      fnames.Pairwise (fun a b => strLe a b = true) →
      find_last_projections fnames proj_date =
        (firstBest proj_date fnames, bestDate proj_date fnames) ∧
      (∀ f ∈ fnames, ∀ fd, qualDate proj_date f = some fd →
        ∃ d, bestDate proj_date fnames = some d ∧ fd ≤ d) := by
  intro fnames proj_date _
  exact ⟨find_last_projections_spec fnames proj_date, bestDate_is_max proj_date fnames⟩

/-- Witness for C2: concrete evaluation of the amended claim, including the
spec's own example (the 2020-06-03 file is selected for target 2020-06-03). -/
theorem c2_tiebreak_witness :
    find_last_projections ["2020-06-01-A-B.csv", "2020-06-03-A-B.csv"]
        (mkDate 2020 6 3) =
      (firstBest (mkDate 2020 6 3) ["2020-06-01-A-B.csv", "2020-06-03-A-B.csv"],
        bestDate (mkDate 2020 6 3) ["2020-06-01-A-B.csv", "2020-06-03-A-B.csv"]) ∧
    find_last_projections ["2020-06-01-A-B.csv", "2020-06-03-A-B.csv"]
        (mkDate 2020 6 3) = (some "2020-06-03-A-B.csv", some (mkDate 2020 6 3)) :=
  ⟨(c2_tiebreak_amended ["2020-06-01-A-B.csv", "2020-06-03-A-B.csv"]
      (mkDate 2020 6 3) (by decide)).1, by decide⟩

/-- Counterexample to C2 as stated: both (sorted) files qualify and share the
embedded date 2020-06-01, yet the selector returns the FIRST one in the list,
not the later one as the claim requires. -/
theorem c2_tiebreak_counterexample :
    List.Pairwise (fun a b => strLe a b = true)
      ["2020-06-01-A-A.csv", "2020-06-01-A-B.csv"] ∧
    qualDate (mkDate 2020 6 1) "2020-06-01-A-A.csv" = some (mkDate 2020 6 1) ∧
    qualDate (mkDate 2020 6 1) "2020-06-01-A-B.csv" = some (mkDate 2020 6 1) ∧
    (find_last_projections ["2020-06-01-A-A.csv", "2020-06-01-A-B.csv"]
        (mkDate 2020 6 1)).1 = some "2020-06-01-A-A.csv" ∧
    some "2020-06-01-A-A.csv" ≠ some ("2020-06-01-A-B.csv" : String) := by
  exact ⟨by decide, by decide, by decide, by decide, by decide⟩

/-- C3: any selected file's embedded date `d` satisfies `d ≤ proj_date` and
`proj_date - d ≤ tolerance proj_date`, with tolerance 6 on or after
2020-07-20 and 3 before; when no file qualifies the result is `(none, none)`;
and the three concrete tolerance scenarios from the spec hold. -/
theorem c3_tolerance_window :
    (∀ (fnames : List String) (proj_date : Int),
      fnames.Pairwise (fun a b => strLe a b = true) →
      (∀ fn d, find_last_projections fnames proj_date = (some fn, some d) →
        fn ∈ fnames ∧ parseDate (basename fn) = some d ∧ d ≤ proj_date ∧
          proj_date - d ≤ tolerance proj_date) ∧
      ((∀ f ∈ fnames, qualifies proj_date f = false) →
        find_last_projections fnames proj_date = (none, none))) ∧
    (∀ proj_date : Int,
      tolerance proj_date = if mkDate 2020 7 20 ≤ proj_date then 6 else 3) ∧
    find_last_projections ["2020-07-09-A-B.csv"] (mkDate 2020 7 13)
      = (none, none) ∧
    find_last_projections ["2020-07-14-A-B.csv"] (mkDate 2020 7 20)
      = (some "2020-07-14-A-B.csv", some (mkDate 2020 7 14)) ∧
    find_last_projections ["2020-07-13-A-B.csv"] (mkDate 2020 7 20)
      = (none, none) := by
  refine ⟨?_, fun _ => rfl, by decide, by decide, by decide⟩
  intro fnames proj_date _
  constructor
  · intro fn d hres
    rw [find_last_projections_spec] at hres
    have h1 := congrArg Prod.fst hres
    have h2 := congrArg Prod.snd hres
    simp only [] at h1 h2
    unfold firstBest at h1
    rw [h2] at h1
    dsimp only at h1
    have hmem := List.mem_of_find?_eq_some h1
    have hp := List.find?_some h1
    have hq : qualDate proj_date fn = some d := by simpa using hp
    obtain ⟨hparse, hle, htol⟩ := qualDate_some proj_date fn d hq
    exact ⟨hmem, hparse, hle, htol⟩
  · intro hnone
    rw [find_last_projections_spec]
    have hb := bestDate_eq_none proj_date fnames hnone
    unfold firstBest
    rw [hb]

/-- Witness for C3: the general part of the claim evaluated on a concrete
selector run (target 2020-07-20, file dated six days earlier). -/
theorem c3_tolerance_window_witness :
    "2020-07-14-A-B.csv" ∈ ["2020-07-14-A-B.csv"] ∧
    parseDate (basename "2020-07-14-A-B.csv") = some (mkDate 2020 7 14) ∧
    mkDate 2020 7 14 ≤ mkDate 2020 7 20 ∧
    mkDate 2020 7 20 - mkDate 2020 7 14 ≤ tolerance (mkDate 2020 7 20) :=
  (c3_tolerance_window.1 ["2020-07-14-A-B.csv"] (mkDate 2020 7 20)
      (by simp)).1 "2020-07-14-A-B.csv" (mkDate 2020 7 14) (by decide)

/-! ### Claim C4: beat-baseline boolean -/

/-- C4: `beat_baseline` is missing exactly where the model's own error is
missing (whatever the baseline holds); on a defined error `e` it is `true`
exactly when `|e|` is strictly below the baseline's defined absolute error
or `|e| < 1e-3`, and `false` otherwise; in particular absolute error 0.0005
beats a baseline with absolute error 0.0004. -/
theorem c4_beat_baseline_rule :
    (∀ em eb : Option ℚ, (beat_baseline em eb = none ↔ em = none)) ∧
    (∀ (e : ℚ) (eb : Option ℚ),
      (beat_baseline (some e) eb = some true ↔
        ((∃ b, eb = some b ∧ |e| < |b|) ∨ |e| < 1/1000)) ∧
      (beat_baseline (some e) eb = some false ↔
        ¬ ((∃ b, eb = some b ∧ |e| < |b|) ∨ |e| < 1/1000))) ∧
    beat_baseline (some (5/10000)) (some (4/10000)) = some true := by
  refine ⟨?_, ?_, ?_⟩
  · intro em eb
    cases em <;> simp [beat_baseline]
  · intro e eb
    cases eb with
    | none =>
      constructor
      · simp [beat_baseline, ltNaN, absOpt]
      · simp [beat_baseline, ltNaN, absOpt]
    | some b =>
      constructor
      · simp [beat_baseline, ltNaN, absOpt]
      · simp [beat_baseline, ltNaN, absOpt]
  · simp only [beat_baseline, absOpt, ltNaN, Option.map_some']
    have h1 : |(5:ℚ)/10000| < 1/1000 := by
      rw [abs_of_pos (by norm_num)]
      norm_num
    rw [decide_eq_true h1, Bool.or_true]

/-! ### Claim C5: horizon-completeness filter -/

theorem one_lt_length_of_two_mem {α : Type} {l : List α} {a b : α}
    (ha : a ∈ l) (hb : b ∈ l) (hne : a ≠ b) : 1 < l.length := by
  cases l with
  | nil => exact absurd ha (List.not_mem_nil a)
  | cons x tl =>
    cases tl with
    | nil =>
      have ha' : a = x := by simpa using ha
      have hb' : b = x := by simpa using hb
      exact absurd (ha'.trans hb'.symm) hne
    | cons y tl2 =>
      simp only [List.length_cons]
      omega

/-- C5: when the per-location counts of weekly incident-case rows differ,
the horizon filter keeps exactly the incident-case rows of locations whose
count equals the maximum — a location with fewer rows (e.g. weeks {1,2,4}
with week 3 missing) loses all its rows for that model, while complete
locations keep theirs. -/
theorem c5_horizon_completeness :
    ∀ rows : List ForecastRow,
      (∃ l1 ∈ incLocations rows, ∃ l2 ∈ incLocations rows,
        incCount rows l1 ≠ incCount rows l2) →
      (∀ r ∈ horizonFilter rows,
        isInc r = true ∧ incCount rows r.location = maxIncCount rows) ∧
      (∀ r ∈ rows, isInc r = true →
        incCount rows r.location = maxIncCount rows →
        r ∈ horizonFilter rows) ∧
      (∀ L : String, incCount rows L < maxIncCount rows →
        ∀ r ∈ horizonFilter rows, r.location ≠ L) := by
  intro rows hdiff
  have hbranch : 1 < (((incLocations rows).map (incCount rows)).dedup).length := by
    rcases hdiff with ⟨l1, hl1, l2, hl2, hne⟩
    exact one_lt_length_of_two_mem
      (List.mem_dedup.mpr (List.mem_map_of_mem _ hl1))
      (List.mem_dedup.mpr (List.mem_map_of_mem _ hl2)) hne
  have hfil : horizonFilter rows =
      (incRows rows).filter
        (fun r => incCount rows r.location == maxIncCount rows) := by
    unfold horizonFilter
    rw [if_pos hbranch]
  have part1 : ∀ r ∈ horizonFilter rows,
      isInc r = true ∧ incCount rows r.location = maxIncCount rows := by
    intro r hr
    rw [hfil] at hr
    have h1 := (List.mem_filter.mp hr).1
    have h2 := (List.mem_filter.mp hr).2
    exact ⟨(List.mem_filter.mp h1).2, by simpa using h2⟩
  refine ⟨part1, ?_, ?_⟩
  · intro r hr hinc hcnt
    rw [hfil]
    exact List.mem_filter.mpr
      ⟨List.mem_filter.mpr ⟨hr, hinc⟩, by simpa using hcnt⟩
  · intro L hL r hr hrl
    have := (part1 r hr).2
    rw [hrl] at this
    omega

/-! ### Claim C9: location codes stay zero-padded strings -/

/-- C9: a one-character FIPS code is zero-padded (`"1"` becomes `"01"`),
longer codes are untouched (leading zeros survive), the `abbr_to_fips`
normalization changes nothing but the padding, and the truth grouping only
ever emits location strings that occur verbatim in its input rows. -/
theorem c9_location_strings :
    pad_fips "1" = "01" ∧
    (∀ v : String, 2 ≤ v.length → pad_fips v = v) ∧
    (∀ (m : List (String × String)) (k v : String),
      ((k, v) ∈ normalize_abbr_to_fips m ↔
        ∃ v0, (k, v0) ∈ m ∧ v = pad_fips v0)) ∧
    (∀ (rows : List TruthRow) (l : String) (q : ℚ),
      (l, q) ∈ group_sum_by_location rows → ∃ r ∈ rows, r.location = l) := by
  refine ⟨rfl, ?_, ?_, ?_⟩
  · intro v hv
    unfold pad_fips
    rw [if_neg (by omega)]
  · intro m k v
    unfold normalize_abbr_to_fips
    simp only [List.mem_map, Prod.mk.injEq]
    constructor
    · rintro ⟨⟨k0, v0⟩, hm, hk, hv⟩
      exact ⟨v0, by rw [← hk]; exact hm, hv.symm⟩
    · rintro ⟨v0, hm, rfl⟩
      exact ⟨(k, v0), hm, rfl, rfl⟩
  · intro rows l q h
    unfold group_sum_by_location at h
    rcases List.mem_map.mp h with ⟨l0, hl0, heq⟩
    have hll : l0 = l := congrArg Prod.fst heq
    subst hll
    rcases List.mem_map.mp (List.mem_dedup.mp hl0) with ⟨r, hr, hrl⟩
    exact ⟨r, hr, hrl⟩

/-- Witness for C9: a zero-padded code is left untouched (leading zero
survives), by the theorem applied at the concrete code "01". -/
theorem c9_location_strings_witness :
    pad_fips "01" = "01" :=
  c9_location_strings.2.1 "01" (by decide)

/-! ### Claim C10: point-vs-median chosen once per model -/

/-- C10: the estimate-type decision is taken once over the whole model
table: in the point branch every surviving row is a point row, so a location
with no point rows disappears entirely; in the median branch every surviving
row is a 0.5-quantile row, so a point-only location disappears. -/
theorem c10_estimate_choice_per_model :
    ∀ (use_point : Bool) (rows : List ForecastRow) (fips : List String),
      ((has_point rows && (use_point || !has_median rows)) = true →
        (∀ r ∈ select_estimates use_point rows fips, r.type = "point") ∧
        (∀ L : String, (∀ r ∈ rows, r.location = L → r.type ≠ "point") →
          ∀ r ∈ select_estimates use_point rows fips, r.location ≠ L)) ∧
      ((has_point rows && (use_point || !has_median rows)) = false →
        (∀ r ∈ select_estimates use_point rows fips, r.quantile = some (1/2)) ∧
        (∀ L : String, (∀ r ∈ rows, r.location = L → r.quantile ≠ some (1/2)) →
          ∀ r ∈ select_estimates use_point rows fips, r.location ≠ L)) := by
  intro use_point rows fips
  constructor
  · intro hc
    have hsel : select_estimates use_point rows fips =
        rows.filter (fun r =>
          isInc r && r.type == "point" && fips.contains r.location) := by
      unfold select_estimates
      rw [if_pos hc]
    have hpt : ∀ r ∈ select_estimates use_point rows fips, r.type = "point" := by
      intro r hr
      rw [hsel] at hr
      have hb := (List.mem_filter.mp hr).2
      simp only [Bool.and_eq_true, beq_iff_eq] at hb
      exact hb.1.2
    refine ⟨hpt, ?_⟩
    intro L hL r hr hrl
    have hmem := by rw [hsel] at hr; exact (List.mem_filter.mp hr).1
    exact hL r hmem hrl (hpt r hr)
  · intro hc
    have hsel : select_estimates use_point rows fips =
        rows.filter (fun r =>
          isInc r && r.quantile == some (1/2) && fips.contains r.location) := by
      unfold select_estimates
      rw [if_neg (by rw [hc]; exact Bool.false_ne_true)]
    have hmed : ∀ r ∈ select_estimates use_point rows fips,
        r.quantile = some (1/2) := by
      intro r hr
      rw [hsel] at hr
      have hb := (List.mem_filter.mp hr).2
      simp only [Bool.and_eq_true, beq_iff_eq] at hb
      exact hb.1.2
    refine ⟨hmed, ?_⟩
    intro L hL r hr hrl
    have hmem := by rw [hsel] at hr; exact (List.mem_filter.mp hr).1
    exact hL r hmem hrl (hmed r hr)

/-! ### Claim C7: national vs per-location US consistency -/

theorem check_pass_at_key (t1 t2 : List (String × Option ℚ)) (k : String)
    (hk : k ∈ t1.map (fun r => r.1))
    (hc : check_us_consistency t1 t2 = true) :
    (∃ v, alignedVal t1 k = some v ∧ alignedVal t2 k = some v) ∨
      (alignedVal t1 k = none ∧ alignedVal t2 k = none) := by
  have hku : k ∈ keysUnion t1 t2 :=
    List.mem_dedup.mpr (List.mem_append_left _ hk)
  have hall := List.all_eq_true.mp hc k hku
  cases ha : alignedVal t1 k with
  | none =>
    cases hb : alignedVal t2 k with
    | none => exact Or.inr ⟨rfl, rfl⟩
    | some y =>
      rw [ha, hb] at hall
      exact absurd hall (by simp [eqOrBothNaN])
  | some x =>
    cases hb : alignedVal t2 k with
    | none =>
      rw [ha, hb] at hall
      exact absurd hall (by simp [eqOrBothNaN])
    | some y =>
      rw [ha, hb] at hall
      simp only [eqOrBothNaN, beq_iff_eq] at hall
      exact Or.inl ⟨x, rfl, by rw [hall]⟩

/-- C7: whenever the consistency assert passes, every model present in both
the national table and the per-location table has equal defined values or is
undefined in both (pandas-aligned view); conversely a model present in both
whose two values disagree in definedness or in value makes the assert fail
(abort the run). -/
theorem c7_us_consistency :
    ∀ (t1 t2 : List (String × Option ℚ)),
      (check_us_consistency t1 t2 = true →
        ∀ k, k ∈ t1.map (fun r => r.1) → k ∈ t2.map (fun r => r.1) →
          ((∃ v, alignedVal t1 k = some v ∧ alignedVal t2 k = some v) ∨
            (alignedVal t1 k = none ∧ alignedVal t2 k = none))) ∧
      (∀ k, k ∈ t1.map (fun r => r.1) → k ∈ t2.map (fun r => r.1) →
        ¬ ((∃ v, alignedVal t1 k = some v ∧ alignedVal t2 k = some v) ∨
            (alignedVal t1 k = none ∧ alignedVal t2 k = none)) →
        check_us_consistency t1 t2 = false) := by
  intro t1 t2
  constructor
  · intro hc k hk1 _
    exact check_pass_at_key t1 t2 k hk1 hc
  · intro k hk1 _ hne
    cases hcheck : check_us_consistency t1 t2 with
    | false => rfl
    | true => exact absurd (check_pass_at_key t1 t2 k hk1 hcheck) hne

/-- Witness for C7: a model present in both tables with a defined national
error but a missing per-location "US" error makes the consistency check
fail, by the theorem applied at that model. -/
theorem c7_us_consistency_witness :
    check_us_consistency [("A", some 3)] [("A", none)] = false :=
  (c7_us_consistency [("A", some 3)] [("A", none)]).2 "A"
    (by decide) (by decide)
    (fun hcon => by
      rcases hcon with ⟨v, _, hv2⟩ | ⟨hn1, _⟩
      · exact Option.noConfusion hv2
      · exact Option.noConfusion hn1)

/-! ### Claim C8: model-family merging -/

/-- C8: for any configured pattern, a table with no matching model name is
returned unchanged; otherwise every non-matching row survives untouched,
every surviving row is a non-matching original or the synthetic
`pfx ++ "-combined"` entry, and that entry carries, column by column, the
(NaN-skipping) unweighted mean of the matching rows. -/
theorem c8_merge_models :
    ∀ (pfx : String) (n : Nat) (df : List (String × List (Option ℚ))),
      ((∀ r ∈ df, containsSubstr r.1 pfx = false) →
        merge_models_step pfx n df = df) ∧
      (∀ r ∈ df, containsSubstr r.1 pfx = false →
        r ∈ merge_models_step pfx n df) ∧
      (∀ r ∈ merge_models_step pfx n df,
        (r ∈ df ∧ containsSubstr r.1 pfx = false) ∨
          r.1 = pfx ++ "-combined") ∧
      ((∃ r ∈ df, containsSubstr r.1 pfx = true) →
        ∃ avg, (pfx ++ "-combined", avg) ∈ merge_models_step pfx n df ∧
          ∀ j, j < n → avg.get? j =
            some (colMean ((df.filter (fun r => containsSubstr r.1 pfx)).map
              (fun r => r.2)) j)) := by
  intro pfx n df
  refine ⟨?_, ?_, ?_, ?_⟩
  · intro hnone
    have hnil : df.filter (fun r => containsSubstr r.1 pfx) = [] :=
      List.filter_eq_nil.mpr (fun r hr => by rw [hnone r hr]; exact Bool.false_ne_true)
    unfold merge_models_step
    rw [hnil]
    rfl
  · intro r hr hne
    unfold merge_models_step
    by_cases hm : (df.filter (fun r => containsSubstr r.1 pfx)).length = 0
    · rw [if_pos hm]
      exact hr
    · rw [if_neg hm]
      refine List.mem_append_left _ (List.mem_filter.mpr ⟨hr, ?_⟩)
      rw [hne]
      rfl
  · intro r hr
    unfold merge_models_step at hr
    by_cases hm : (df.filter (fun r => containsSubstr r.1 pfx)).length = 0
    · rw [if_pos hm] at hr
      left
      refine ⟨hr, ?_⟩
      cases hcs : containsSubstr r.1 pfx with
      | false => rfl
      | true =>
        have : r ∈ df.filter (fun r => containsSubstr r.1 pfx) :=
          List.mem_filter.mpr ⟨hr, hcs⟩
        rw [List.length_eq_zero.mp hm] at this
        exact absurd this (List.not_mem_nil r)
    · rw [if_neg hm] at hr
      rcases List.mem_append.mp hr with hleft | hright
      · left
        have h1 := (List.mem_filter.mp hleft).1
        have h2 := (List.mem_filter.mp hleft).2
        exact ⟨h1, by simpa using h2⟩
      · right
        rw [List.mem_singleton.mp hright]
  · intro hex
    rcases hex with ⟨r0, hr0, hcs0⟩
    have hmem0 : r0 ∈ df.filter (fun r => containsSubstr r.1 pfx) :=
      List.mem_filter.mpr ⟨hr0, hcs0⟩
    have hm : ¬ (df.filter (fun r => containsSubstr r.1 pfx)).length = 0 := by
      intro hzero
      rw [List.length_eq_zero.mp hzero] at hmem0
      exact absurd hmem0 (List.not_mem_nil r0)
    refine ⟨(List.range n).map (fun j =>
      colMean ((df.filter (fun r => containsSubstr r.1 pfx)).map
        (fun r => r.2)) j), ?_, ?_⟩
    · unfold merge_models_step
      rw [if_neg hm]
      exact List.mem_append_right _ (List.mem_singleton.mpr rfl)
    · intro j hj
      rw [List.get?_map, List.get?_range hj]
      rfl

/-- Witness for C8: a no-match table is returned unchanged, and in a merge
with a matching row the non-matching baseline row survives untouched. -/
theorem c8_merge_models_witness :
    merge_models_step "Imperial" 1 [("COVIDhub-baseline", [some 3])]
        = [("COVIDhub-baseline", [some 3])] ∧
    ("COVIDhub-baseline", [some (3:ℚ)]) ∈
      merge_models_step "Imperial" 1
        [("Imperial-ensemble1", [some 2]), ("COVIDhub-baseline", [some 3])] :=
  ⟨(c8_merge_models "Imperial" 1 [("COVIDhub-baseline", [some 3])]).1
      (by decide),
    (c8_merge_models "Imperial" 1
        [("Imperial-ensemble1", [some 2]), ("COVIDhub-baseline", [some 3])]).2.1
      ("COVIDhub-baseline", [some 3]) (by decide) (by decide)⟩

/-- Witness for C5: a model reporting weeks {1,2,4} at location "01" but
weeks {1,2,3,4} at "US" loses its "01" rows after the horizon filter while
keeping the complete "US" rows. -/
theorem c5_horizon_completeness_witness :
    ForecastRow.mk "1 wk ahead inc case" 10 "US" "point" none 1 ∈ horizonFilter
      [ForecastRow.mk "1 wk ahead inc case" 10 "01" "point" none 1,
        ForecastRow.mk "2 wk ahead inc case" 17 "01" "point" none 1,
        ForecastRow.mk "4 wk ahead inc case" 31 "01" "point" none 1,
        ForecastRow.mk "1 wk ahead inc case" 10 "US" "point" none 1,
        ForecastRow.mk "2 wk ahead inc case" 17 "US" "point" none 1,
        ForecastRow.mk "3 wk ahead inc case" 24 "US" "point" none 1,
        ForecastRow.mk "4 wk ahead inc case" 31 "US" "point" none 1] ∧
    ForecastRow.mk "1 wk ahead inc case" 10 "01" "point" none 1 ∉ horizonFilter
      [ForecastRow.mk "1 wk ahead inc case" 10 "01" "point" none 1,
        ForecastRow.mk "2 wk ahead inc case" 17 "01" "point" none 1,
        ForecastRow.mk "4 wk ahead inc case" 31 "01" "point" none 1,
        ForecastRow.mk "1 wk ahead inc case" 10 "US" "point" none 1,
        ForecastRow.mk "2 wk ahead inc case" 17 "US" "point" none 1,
        ForecastRow.mk "3 wk ahead inc case" 24 "US" "point" none 1,
        ForecastRow.mk "4 wk ahead inc case" 31 "US" "point" none 1] :=
  ⟨(c5_horizon_completeness _ (by decide)).2.1
      (ForecastRow.mk "1 wk ahead inc case" 10 "US" "point" none 1)
      (by decide) (by decide) (by decide),
    fun hmem => absurd rfl
      ((c5_horizon_completeness _ (by decide)).2.2 "01" (by decide)
        (ForecastRow.mk "1 wk ahead inc case" 10 "01" "point" none 1) hmem)⟩

/-- Witness for C10: with a point row at "US" and a quantile-only location
"01", the point branch drops the "01" row entirely. -/
theorem c10_estimate_choice_witness :
    ForecastRow.mk "1 wk ahead inc case" 10 "01" "quantile" none 2 ∉
      select_estimates true
        [ForecastRow.mk "1 wk ahead inc case" 10 "US" "point" none 5,
          ForecastRow.mk "1 wk ahead inc case" 10 "01" "quantile" none 2]
        ["US", "01"] :=
  fun hmem => absurd rfl
    (((c10_estimate_choice_per_model true
          [ForecastRow.mk "1 wk ahead inc case" 10 "US" "point" none 5,
            ForecastRow.mk "1 wk ahead inc case" 10 "01" "quantile" none 2]
          ["US", "01"]).1 (by decide)).2 "01" (by decide)
      (ForecastRow.mk "1 wk ahead inc case" 10 "01" "quantile" none 2) hmem)

/-! ### Claim C6: Truth Loader -/

theorem group_keys_eq (rows : List TruthRow) :
    (group_sum_by_location rows).map (fun p => p.1) =
      (rows.map (fun r => r.location)).dedup := by
  unfold group_sum_by_location
  rw [List.map_map]
  exact List.map_id _

/-- C6: the truth window keeps exactly the rows with
`proj_date - 1 ≤ date ≤ eval_date`; a successful load returns, per location,
the sum of daily cases over that window; an empty window aborts; and a
location of the evaluation universe missing from the window aborts. -/
theorem c6_truth_loader :
    ∀ (rows : List TruthRow) (proj_date eval_date : Int)
      (fips : List String), fips.Nodup →
      (∀ r : TruthRow, r ∈ truth_window rows (proj_date - 1) eval_date ↔
        (r ∈ rows ∧ proj_date - 1 ≤ r.date ∧ r.date ≤ eval_date)) ∧
      (∀ res, load_truth rows proj_date eval_date fips = some res →
        ∀ l v, (l, v) ∈ res →
          v = location_total (truth_window rows (proj_date - 1) eval_date) l) ∧
      (truth_window rows (proj_date - 1) eval_date = [] →
        load_truth rows proj_date eval_date fips = none) ∧
      (∀ f ∈ fips,
        (∀ r ∈ truth_window rows (proj_date - 1) eval_date, r.location ≠ f) →
        load_truth rows proj_date eval_date fips = none) := by
  intro rows proj_date eval_date fips hnodup
  refine ⟨?_, ?_, ?_, ?_⟩
  · intro r
    unfold truth_window
    rw [List.mem_filter]
    simp only [decide_eq_true_eq]
  · intro res hres l v hlv
    unfold load_truth at hres
    split at hres
    · exact absurd hres (by simp)
    · split at hres
      · injection hres with hres'
        subst hres'
        have hgrp := (List.mem_filter.mp hlv).1
        rcases List.mem_map.mp hgrp with ⟨l0, _, heq⟩
        have h1 : l0 = l := congrArg Prod.fst heq
        have h2 := congrArg Prod.snd heq
        dsimp only at h2
        rw [h1] at h2
        exact h2.symm
      · exact absurd hres (by simp)
  · intro hwin
    unfold load_truth
    rw [if_pos (by rw [hwin]; rfl)]
  · intro f hf hnof
    unfold load_truth
    by_cases hlen : (truth_window rows (proj_date - 1) eval_date).length = 0
    · rw [if_pos hlen]
    · rw [if_neg hlen]
      have hne : ((group_sum_by_location
          (truth_window rows (proj_date - 1) eval_date)).filter
            (fun p => fips.contains p.1)).length ≠ fips.length := by
        set win := truth_window rows (proj_date - 1) eval_date with hwin
        set filt := (group_sum_by_location win).filter
          (fun p => fips.contains p.1) with hfilt
        have hsub : (filt.map (fun p => p.1)).Sublist
            ((group_sum_by_location win).map (fun p => p.1)) :=
          (List.filter_sublist _).map _
        have hnodupkeys : (filt.map (fun p => p.1)).Nodup := by
          refine List.Nodup.sublist hsub ?_
          rw [group_keys_eq]
          exact List.nodup_dedup _
        have hsubset : (filt.map (fun p => p.1)) ⊆ fips.erase f := by
          intro k hk
          rcases List.mem_map.mp hk with ⟨p, hp, hpk⟩
          have hpf := (List.mem_filter.mp hp).2
          have hkfips : k ∈ fips := by
            rw [← hpk]
            simpa using hpf
          have hkwin : k ∈ (win.map (fun r => r.location)).dedup := by
            have := (List.mem_filter.mp hp).1
            have hkeys := congrArg (fun l => l.map (fun p : String × ℚ => p.1))
              (rfl : group_sum_by_location win = group_sum_by_location win)
            rw [← hpk]
            have : p.1 ∈ (group_sum_by_location win).map (fun p => p.1) :=
              List.mem_map_of_mem _ (List.mem_filter.mp hp).1
            rwa [group_keys_eq] at this
          have hkne : k ≠ f := by
            intro hkf
            rcases List.mem_map.mp (List.mem_dedup.mp hkwin) with ⟨r, hr, hrk⟩
            exact hnof r hr (by rw [hrk, hkf])
          exact (List.mem_erase_of_ne hkne).mpr hkfips
        have hlenle : filt.length ≤ (fips.erase f).length := by
          have := (List.Nodup.subperm hnodupkeys hsubset).length_le
          rwa [List.length_map] at this
        have hlt : (fips.erase f).length < fips.length := by
          rw [List.length_erase_of_mem hf]
          have : 0 < fips.length := List.length_pos.mpr (by
            intro hnil
            rw [hnil] at hf
            exact absurd hf (List.not_mem_nil f))
          omega
        omega
      rw [if_neg hne]

/-- Witness for C6: the window membership rule on a concrete row, the abort
on an empty truth window, and the abort when an evaluated location ("01") is
missing from the window. -/
theorem c6_truth_loader_witness :
    ((TruthRow.mk 5 "US" 3) ∈ truth_window [TruthRow.mk 5 "US" 3] (6 - 1) 7 ↔
      ((TruthRow.mk 5 "US" 3) ∈ [TruthRow.mk 5 "US" 3] ∧
        (6:Int) - 1 ≤ (TruthRow.mk 5 "US" 3).date ∧
        (TruthRow.mk 5 "US" 3).date ≤ 7)) ∧
    load_truth [] 6 7 ["US"] = none ∧
    load_truth [TruthRow.mk 5 "US" 3] 6 7 ["US", "01"] = none :=
  ⟨(c6_truth_loader [TruthRow.mk 5 "US" 3] 6 7 ["US"] (by decide)).1
      (TruthRow.mk 5 "US" 3),
    (c6_truth_loader [] 6 7 ["US"] (by decide)).2.2.1 (by decide),
    (c6_truth_loader [TruthRow.mk 5 "US" 3] 6 7 ["US", "01"]
        (by decide)).2.2.2 "01" (by decide) (by decide)⟩

/-! ### Claim C1: missing-value imputation in the Scorer -/

theorem colAbsMean_isSome (rows : List (List (Option ℚ))) (j : Nat)
    (h : ∃ v ∈ colAt rows j, v.isSome = true) :
    (colAbsMean rows j).isSome = true := by
  rcases h with ⟨v, hv, hvs⟩
  rcases Option.isSome_iff_exists.mp hvs with ⟨x, hx⟩
  have hmem : |x| ∈ ((colAt rows j).map (fun v => v.map (fun y => |y|))).filterMap id := by
    rw [List.mem_filterMap]
    refine ⟨some |x|, ?_, rfl⟩
    have := List.mem_map_of_mem (fun v : Option ℚ => v.map (fun y => |y|)) hv
    rwa [hx] at this
  have hne : (((colAt rows j).map (fun v => v.map (fun y => |y|))).filterMap id).length ≠ 0 := by
    intro hzero
    rw [List.length_eq_zero.mp hzero] at hmem
    exact absurd hmem (List.not_mem_nil _)
  unfold colAbsMean nanmean
  rw [if_neg hne]
  rfl

theorem zipWith_fillCell_all_some (row fills : List (Option ℚ))
    (hall : ∀ v ∈ row, v.isSome = true) (hlen : row.length ≤ fills.length) :
    List.zipWith fillCell row fills = row := by
  induction row generalizing fills with
  | nil => simp
  | cons v tl ih =>
    cases fills with
    | nil => simp at hlen
    | cons f ftl =>
      rcases Option.isSome_iff_exists.mp (hall v (List.mem_cons_self v tl)) with ⟨x, hx⟩
      rw [List.zipWith_cons_cons,
        ih ftl (fun w hw => hall w (List.mem_cons_of_mem v hw)) (by simpa using hlen),
        hx]
      rfl

theorem impute_mem_lengths (n : Nat) (df : List (String × List (Option ℚ)))
    (hlen : ∀ r ∈ df, r.2.length = n) :
    ∀ r ∈ impute_with_col_abs_means n df, r.2.length = n := by
  intro r hr
  unfold impute_with_col_abs_means at hr
  rcases List.mem_map.mp hr with ⟨r0, hr0, heq⟩
  subst heq
  show (List.zipWith fillCell r0.2 _).length = n
  rw [List.length_zipWith, hlen r0 hr0, List.length_map, List.length_range]
  exact Nat.min_self n

theorem impute_noNaN (n : Nat) (df : List (String × List (Option ℚ)))
    (hlen : ∀ r ∈ df, r.2.length = n)
    (hcov : ∀ j, j < n → ∃ r ∈ df, (r.2.getD j none).isSome = true) :
    noNaN (impute_with_col_abs_means n df) = true := by
  unfold noNaN
  rw [List.all_eq_true]
  intro r hr
  rw [List.all_eq_true]
  intro v hv
  unfold impute_with_col_abs_means at hr
  rcases List.mem_map.mp hr with ⟨r0, hr0, heq⟩
  subst heq
  rcases List.mem_iff_getElem?.mp hv with ⟨j, hj⟩
  rw [List.getElem?_zipWith] at hj
  cases h1 : r0.2[j]? with
  | none =>
    rw [h1] at hj
    cases h2 : ((List.range n).map
        (fun j => colAbsMean (df.map (fun r2 => r2.2)) j))[j]? <;>
      rw [h2] at hj <;> simp at hj
  | some a =>
    rw [h1] at hj
    cases h2 : ((List.range n).map
        (fun j => colAbsMean (df.map (fun r2 => r2.2)) j))[j]? with
    | none => rw [h2] at hj; simp at hj
    | some b =>
      rw [h2] at hj
      simp only [Option.some.injEq] at hj
      subst hj
      cases a with
      | some x => rfl
      | none =>
        have hlenfills : ((List.range n).map
            (fun j => colAbsMean (df.map (fun r2 => r2.2)) j)).length = n := by
          rw [List.length_map, List.length_range]
        have hjn : j < n := by
          rcases List.getElem?_eq_some.mp h2 with ⟨hb, _⟩
          rwa [hlenfills] at hb
        have hfj : ((List.range n).map
            (fun j => colAbsMean (df.map (fun r2 => r2.2)) j))[j]? =
            some (colAbsMean (df.map (fun r2 => r2.2)) j) := by
          rw [List.getElem?_map, List.getElem?_range hjn]
          rfl
        rw [hfj] at h2
        injection h2 with h2'
        rcases hcov j hjn with ⟨r1, hr1, hs1⟩
        have hmem : (r1.2.getD j none) ∈ colAt (df.map (fun r2 => r2.2)) j := by
          unfold colAt
          exact List.mem_map_of_mem _ (List.mem_map_of_mem _ hr1)
        have := colAbsMean_isSome (df.map (fun r2 => r2.2)) j ⟨_, hmem, hs1⟩
        simpa [fillCell, ← h2'] using this

theorem impute_fix (n : Nat) (df : List (String × List (Option ℚ)))
    (hlen : ∀ r ∈ df, r.2.length = n) (hnn : noNaN df = true) :
    impute_with_col_abs_means n df = df := by
  unfold noNaN at hnn
  unfold impute_with_col_abs_means
  have hmapid : ∀ r ∈ df, ((fun r : String × List (Option ℚ) =>
      (r.1, List.zipWith fillCell r.2
        ((List.range n).map (fun j => colAbsMean (df.map (fun r2 => r2.2)) j)))) r)
      = id r := by
    intro r hr
    have hall : ∀ v ∈ r.2, v.isSome = true :=
      List.all_eq_true.mp (List.all_eq_true.mp hnn r hr)
    show (r.1, List.zipWith fillCell r.2 _) = r
    rw [zipWith_fillCell_all_some r.2 _ hall
      (by rw [hlen r hr, List.length_map, List.length_range])]
  rw [List.map_congr_left hmapid, List.map_id]

/-- C1 (amended): in a table whose rows all carry `n` per-location columns,
`fillna(df.abs().mean())` replaces each missing cell with the mean absolute
error of its COLUMN (that location's mean across the models defined there) —
not the model's own row mean; if every column has at least one defined model
the imputed table has no missing cell (otherwise the script's follow-up
assert aborts); a table without missing cells is a fixed point, so re-running
imputation on an already-imputed (fully covered) table is a no-op. -/
theorem c1_imputation_amended :
    ∀ (n : Nat) (df : List (String × List (Option ℚ))),
      (∀ r ∈ df, r.2.length = n) →
      (∀ nm row, (nm, row) ∈ df → ∃ row',
        (nm, row') ∈ impute_with_col_abs_means n df ∧ row'.length = n ∧
        ∀ j, j < n → row'[j]? =
          some (fillCell (row.getD j none)
            (colAbsMean (df.map (fun r2 => r2.2)) j))) ∧
      ((∀ j, j < n → ∃ r ∈ df, (r.2.getD j none).isSome = true) →
        noNaN (impute_with_col_abs_means n df) = true) ∧
      (noNaN df = true → impute_with_col_abs_means n df = df) ∧
      ((∀ j, j < n → ∃ r ∈ df, (r.2.getD j none).isSome = true) →
        impute_with_col_abs_means n (impute_with_col_abs_means n df) =
          impute_with_col_abs_means n df) := by
  intro n df hlen
  refine ⟨?_, fun hcov => impute_noNaN n df hlen hcov,
    fun hnn => impute_fix n df hlen hnn,
    fun hcov => impute_fix n _ (impute_mem_lengths n df hlen)
      (impute_noNaN n df hlen hcov)⟩
  intro nm row hmem
  refine ⟨List.zipWith fillCell row ((List.range n).map
      (fun j => colAbsMean (df.map (fun r2 => r2.2)) j)), ?_, ?_, ?_⟩
  · unfold impute_with_col_abs_means
    exact List.mem_map_of_mem _ hmem
  · rw [List.length_zipWith, List.length_map, List.length_range]
    have h2 : row.length = n := hlen (nm, row) hmem
    rw [h2]
    exact Nat.min_self n
  · intro j hj
    have h2 : row.length = n := hlen (nm, row) hmem
    have hjr : j < row.length := by rw [h2]; exact hj
    have ha : row[j]? = some row[j] := List.getElem?_eq_getElem hjr
    have hfj : ((List.range n).map
        (fun j => colAbsMean (df.map (fun r2 => r2.2)) j))[j]? =
        some (colAbsMean (df.map (fun r2 => r2.2)) j) := by
      rw [List.getElem?_map, List.getElem?_range hj]
      rfl
    have hgd : row.getD j none = row[j] := by
      rw [List.getD_eq_getElem?_getD, ha]
      rfl
    rw [List.getElem?_zipWith, ha, hfj, hgd]

/-- Counterexample to C1 as stated: model M1 = (2, NaN), M2 = (4, 6).  The
claim requires M1's missing cell to become M1's own mean absolute error
(`some 2`), but the code fills it with the column's cross-model mean
absolute error (`some 6`). -/
theorem c1_imputation_counterexample :
    impute_with_col_abs_means 2 [("M1", [some 2, none]), ("M2", [some 4, some 6])]
      = [("M1", [some 2, some 6]), ("M2", [some 4, some 6])] ∧
    rowAbsMean [some 2, none] = some 2 ∧
    (some (6:ℚ) : Option ℚ) ≠ some 2 := by
  have h6 : |(6:ℚ)| = 6 := abs_of_pos (by norm_num)
  have h2 : |(2:ℚ)| = 2 := abs_of_pos (by norm_num)
  have h4 : |(4:ℚ)| = 4 := abs_of_pos (by norm_num)
  refine ⟨?_, ?_, ?_⟩
  · simp [impute_with_col_abs_means, colAbsMean, colAt, nanmean, fillCell,
      List.range_succ, h2, h4, h6]
  · simp [rowAbsMean, nanmean, h2]
  · simp only [ne_eq, Option.some.injEq]
    norm_num

/-- Witness for C1: on a concrete covered table the imputed result has no
NaN left, and re-running the imputation leaves it unchanged. -/
theorem c1_imputation_witness :
    noNaN (impute_with_col_abs_means 2
      [("M1", [some 2, none]), ("M2", [some 4, some 6])]) = true ∧
    impute_with_col_abs_means 2 (impute_with_col_abs_means 2
      [("M1", [some 2, none]), ("M2", [some 4, some 6])]) =
      impute_with_col_abs_means 2
        [("M1", [some 2, none]), ("M2", [some 4, some 6])] :=
  ⟨(c1_imputation_amended 2 _ (by decide)).2.1 (by decide),
    (c1_imputation_amended 2 _ (by decide)).2.2.2 (by decide)⟩
